import Mathlib

/-!
Verification of the live dictation pipeline (`live.py`).

The development shallowly embeds the pieces of the program the claims talk
about:

* the pause-based utterance segmenter `AudioProcessor`
  (`reset` / `add_audio` / `_process_chunk` / `_trigger_transcription` /
  `finalize`), with the VAD classifier abstracted as a boolean parameter and
  wall-clock time as an explicit rational argument;
* the transcription worker `_transcribe_audio` and its sequential drain of
  the FIFO `transcription_queue`, with the external whisper engine abstracted
  as a function from (audio, language, optional prompt) to an optional raw
  stdout string (`none` models a raised exception);
* a small interleaving model of the shutdown protocol between `main`'s
  `finally:` block and `transcription_worker`'s timeout/exit check.

Python strings are modelled as `List Char`; Python `str.strip()` and
`str.split()` (whitespace runs, empties dropped) are `pyStrip` and `pySplit`.
-/

namespace LemonWhisper

/-- Python strings, modelled as lists of characters. -/
abbrev Str := List Char

/-- Whitespace test used by Python's `str.strip()` / `str.split()`. -/
def isWs (c : Char) : Bool := c.isWhitespace

/-- `str.strip()`: drop leading and trailing whitespace. -/
def pyStrip (s : Str) : Str :=
  ((s.dropWhile isWs).reverse.dropWhile isWs).reverse

/-- `str.split()` with no argument: split on whitespace runs, dropping
empty pieces. -/
def pySplit (s : Str) : List Str :=
  (s.splitOnP isWs).filter (fun w => !w.isEmpty)

/-- `" ".join(ws)`: concatenation with a single separating space. -/
def joinSp : List Str → Str
  | [] => []
  | t :: ts => t ++ (ts.map (fun w => ' ' :: w)).flatten

-- === CONFIGURATION (live.py lines 32-36) ===

/-- `SAMPLE_RATE = 16000`. -/
def SAMPLE_RATE : ℕ := 16000

/-- `CHUNK_SIZE = 512`. -/
def CHUNK_SIZE : ℕ := 512

/-- `PAUSE_THRESHOLD = 0.600` seconds. -/
def PAUSE_THRESHOLD : ℚ := 0.600

/-- Minimum utterance duration in seconds (the `0.5` literals at
live.py lines 217 and 237). -/
def MIN_DURATION : ℚ := 0.5

/-- Combined state of the segmenter: the `AudioProcessor` instance fields
(`audio_buffer`, `chunk_buffer`, `speech_detected`, `silence_start`) together
with the module-level globals it reads and writes
(`speech_detected_in_session`, `speech_detected_in_chunk`,
`last_speech_time`, `transcription_queue`).  The queue is the FIFO list of
audio buffers `put` so far, oldest first.  Times are rationals (seconds, as
returned by `time.time()`); `silence_start = none` models Python `None`. -/
structure SegState where
  audio_buffer : List ℤ
  chunk_buffer : List ℤ
  speech_detected : Bool
  silence_start : Option ℚ
  speech_detected_in_session : Bool
  speech_detected_in_chunk : Bool
  last_speech_time : ℚ
  queue : List (List ℤ)
  deriving Repr, DecidableEq

/-- `AudioProcessor.reset` (live.py 104-109): clears the instance fields
only; the globals and the queue are untouched. -/
def SegState.reset (s : SegState) : SegState :=
  { s with
    audio_buffer := []
    chunk_buffer := []
    speech_detected := false
    silence_start := none }

/-- Duration in seconds of a sample buffer: `len(audio_array) / SAMPLE_RATE`
(live.py 215, 235). -/
def durationOf (a : List ℤ) : ℚ := (a.length : ℚ) / (SAMPLE_RATE : ℚ)

/-- `AudioProcessor._trigger_transcription` (live.py 202-226).  Discards the
buffer when no speech was seen in the session, returns unchanged on an empty
buffer, discards buffers shorter than 0.5 s, and otherwise enqueues a copy of
the buffer; every branch that consumes the buffer ends in `reset`. -/
def trigger_transcription (s : SegState) : SegState :=
  if s.speech_detected_in_session = false then s.reset
  else if s.audio_buffer.length = 0 then s
  else if durationOf s.audio_buffer < MIN_DURATION then s.reset
  else SegState.reset { s with queue := s.queue ++ [s.audio_buffer] }

/-- Python truthiness of `self.silence_start` (an `Optional[float]`):
falsy when `None` and when `0.0`. -/
def timeTruthy : Option ℚ → Bool
  | none => false
  | some t => decide (t ≠ 0)

/-- The pause condition of live.py 144-149, evaluated after the chunk has
been classified: `self.silence_start and now - self.silence_start >=
PAUSE_THRESHOLD and self.speech_detected and len(self.audio_buffer) > 0`. -/
def pauseCond (s : SegState) (now : ℚ) : Bool :=
  match s.silence_start with
  | none => false
  | some t =>
      decide (t ≠ 0) && decide (PAUSE_THRESHOLD ≤ now - t) &&
        s.speech_detected && decide (0 < s.audio_buffer.length)

/-- The state update of live.py 131-141: on a speech chunk set both speech
flags, record the speech time, and clear `silence_start`; on a silence chunk
record `silence_start = now` the first time silence follows speech. -/
def classifyStep (hasSpeech : Bool) (now : ℚ) (s : SegState) : SegState :=
  if hasSpeech then
    { s with
      speech_detected_in_chunk := true
      speech_detected_in_session := true
      last_speech_time := now
      speech_detected := true
      silence_start := none }
  else if s.speech_detected = true ∧ s.silence_start = none then
    { s with silence_start := some now }
  else s

/-- `AudioProcessor._process_chunk` (live.py 122-154) with the VAD verdict
for the chunk abstracted as `hasSpeech` and `time.time()` as `now`:
classify, then fire `_trigger_transcription` iff the pause condition holds. -/
def process_chunk (hasSpeech : Bool) (now : ℚ) (s : SegState) : SegState :=
  let s1 := classifyStep hasSpeech now s
  if pauseCond s1 now then trigger_transcription s1 else s1

/-- The `while len(self.chunk_buffer) >= CHUNK_SIZE` loop of
`AudioProcessor.add_audio` (live.py 117-120), written with explicit fuel
(each iteration consumes at least `CHUNK_SIZE` elements of `chunk_buffer`,
so any fuel at least the starting length suffices).  `classify` abstracts
`_apply_vad`. -/
def addLoop (classify : List ℤ → Bool) (now : ℚ) :
    ℕ → SegState → SegState
  | 0, s => s
  | fuel + 1, s =>
      if CHUNK_SIZE ≤ s.chunk_buffer.length then
        let chunk := s.chunk_buffer.take CHUNK_SIZE
        let s1 := { s with chunk_buffer := s.chunk_buffer.drop CHUNK_SIZE }
        addLoop classify now fuel (process_chunk (classify chunk) now s1)
      else s

/-- `AudioProcessor.add_audio` (live.py 111-120): extend both buffers with
the incoming samples, then process full 512-sample chunks. -/
def add_audio (classify : List ℤ → Bool) (now : ℚ) (data : List ℤ)
    (s : SegState) : SegState :=
  addLoop classify now (s.chunk_buffer.length + data.length)
    { s with
      audio_buffer := s.audio_buffer ++ data
      chunk_buffer := s.chunk_buffer ++ data }

/-- `AudioProcessor.finalize` (live.py 228-248): when the buffer is nonempty
and speech was seen in the session, enqueue the buffer if it is at least
0.5 s and otherwise do nothing; in every case nothing is reset. -/
def SegState.finalize (s : SegState) : SegState :=
  if 0 < s.audio_buffer.length ∧ s.speech_detected_in_session = true then
    if MIN_DURATION ≤ durationOf s.audio_buffer then
      { s with queue := s.queue ++ [s.audio_buffer] }
    else s
  else s

/-- Segmenter state at session start: `main` (live.py 449-454) sets
`speech_detected_in_session = False` and calls `audio_processor.reset()`;
the processor fields start empty and the queue starts empty. -/
def initSeg : SegState :=
  { audio_buffer := []
    chunk_buffer := []
    speech_detected := false
    silence_start := none
    speech_detected_in_session := false
    speech_detected_in_chunk := false
    last_speech_time := 0
    queue := [] }

-- === Transcription worker (`_transcribe_audio`, live.py 283-410) ===

/-- Worker-visible session state: the globals `accumulated_text` and
`detected_language`, plus the observable output side effects — the last
string handed to `pyperclip.copy` and the ordered list of strings pasted so
far. -/
structure WState where
  accumulated_text : Str
  detected_language : Option Str
  clipboard : Option Str
  outputs : List Str
  deriving Repr, DecidableEq

/-- Python truthiness of `detected_language` (an `Optional[str]`):
falsy when `None` and when the empty string. -/
def optTruthy : Option Str → Bool
  | none => false
  | some s => !s.isEmpty

/-- `"auto"`. -/
def autoStr : Str := ['a', 'u', 't', 'o']

/-- The language-selection block of live.py 300-312.  `sessionLang` is the
value of the first `--lang=` command-line argument, if any.  Returns the
language passed to the engine together with the new `detected_language`:
if `detected_language` is truthy it is reused; otherwise the argument value
(which is also stored) or `"auto"`. -/
def computeLanguage (sessionLang detected : Option Str) : Str × Option Str :=
  if optTruthy detected then (detected.getD [], detected)
  else
    match sessionLang with
    | some v => (v, some v)
    | none => (autoStr, detected)

/-- The context block of live.py 346-354: when `accumulated_text` is truthy
and strips to something nonempty, the prompt is the last 100 whitespace
words (joined by single spaces) when there are more than 100 words, and the
whole accumulated text otherwise. -/
def promptOf (a : Str) : Option Str :=
  if a.isEmpty = false ∧ (pyStrip a).isEmpty = false then
    let ws := pySplit a
    some (if 100 < ws.length then joinSp (ws.drop (ws.length - 100)) else a)
  else none

/-- The external whisper-cli engine, abstracted at its interface: a function
from (audio samples, language, optional prompt) to `none` when the
invocation raises, or `some raw` where `raw` is the process stdout. -/
abbrev Engine := List ℤ → Str → Option Str → Option Str

/-- The raw engine output for one utterance from worker state `s`: the
engine applied at the language and prompt `_transcribe_audio` computes. -/
def rawOf (e : Engine) (sl : Option Str) (s : WState) (audio : List ℤ) :
    Option Str :=
  e audio (computeLanguage sl s.detected_language).1 (promptOf s.accumulated_text)

/-- `_transcribe_audio` (live.py 283-410): compute the language (updating
`detected_language`), invoke the engine, strip its stdout; on failure or
empty text do nothing more; on nonempty text append it to
`accumulated_text` (with a separating space when the transcript already has
content), then copy and paste the text, with a leading space exactly when
the new transcript has more words than the text alone (live.py 390). -/
def transcribe_audio (e : Engine) (sl : Option Str) (s : WState)
    (audio : List ℤ) : WState :=
  let det := (computeLanguage sl s.detected_language).2
  match rawOf e sl s audio with
  | none => { s with detected_language := det }
  | some raw =>
      let text := pyStrip raw
      if text.isEmpty then { s with detected_language := det }
      else
        let acc :=
          if s.accumulated_text.isEmpty then text
          else s.accumulated_text ++ ' ' :: text
        let toPaste :=
          if (pySplit text).length < (pySplit acc).length then ' ' :: text
          else text
        { accumulated_text := acc
          detected_language := det
          clipboard := some toPaste
          outputs := s.outputs ++ [toPaste] }

/-- The single sequential consumer `transcription_worker` (live.py 257-280),
viewed as draining a FIFO list of queued utterances in order. -/
def workerDrain (e : Engine) (sl : Option Str) :
    WState → List (List ℤ) → WState
  | s, [] => s
  | s, u :: rest => workerDrain e sl (transcribe_audio e sl s u) rest

/-- The strings `_transcribe_audio` pastes for one utterance from state `s`:
one string on success with nonempty text, none otherwise. -/
def emitOf (e : Engine) (sl : Option Str) (s : WState) (audio : List ℤ) :
    List Str :=
  match rawOf e sl s audio with
  | none => []
  | some raw =>
      let text := pyStrip raw
      if text.isEmpty then []
      else
        let acc :=
          if s.accumulated_text.isEmpty then text
          else s.accumulated_text ++ ' ' :: text
        if (pySplit text).length < (pySplit acc).length then [' ' :: text]
        else [text]

/-- All strings pasted while draining a queue, in paste order. -/
def drainOuts (e : Engine) (sl : Option Str) :
    WState → List (List ℤ) → List Str
  | _, [] => []
  | s, u :: rest =>
      emitOf e sl s u ++ drainOuts e sl (transcribe_audio e sl s u) rest

/-- The nonempty stripped engine texts produced while draining a queue, in
order (failures and empty texts contribute nothing). -/
def resultsOf (e : Engine) (sl : Option Str) :
    WState → List (List ℤ) → List Str
  | _, [] => []
  | s, u :: rest =>
      (match rawOf e sl s u with
       | none => []
       | some raw => if (pyStrip raw).isEmpty then [] else [pyStrip raw])
        ++ resultsOf e sl (transcribe_audio e sl s u) rest

/-- Worker state at session start: `main` (live.py 452-453) resets
`accumulated_text = ""` and `detected_language = None`; nothing copied or
pasted yet. -/
def initW : WState :=
  { accumulated_text := []
    detected_language := none
    clipboard := none
    outputs := [] }

-- === Shutdown protocol (`main`'s finally block, live.py 488-505, and the
-- worker's exit check, live.py 267-276) ===

/-- Program counter of `main`'s shutdown sequence: `recording = False`;
`finalizing = True`; `audio_processor.finalize()`;
`transcription_queue.join()`; `finalizing = False`. -/
inductive MainPhase
  | running | stopped | flagSet | finalized | drained | done
  deriving Repr, DecidableEq

/-- Shared state of the shutdown interleaving: `main`'s program counter, the
flags `recording` and `finalizing`, the queue contents, the utterances the
worker has finished processing, and whether the worker has exited its
loop. -/
structure LifeState where
  phase : MainPhase
  recording : Bool
  finalizing : Bool
  queue : List (List ℤ)
  processed : List (List ℤ)
  workerExited : Bool
  deriving Repr, DecidableEq

/-- One step of `main`'s shutdown sequence; `flush` is whatever
`audio_processor.finalize()` enqueues (at most one utterance).  The
`queue.join()` step can proceed only once the queue has been fully
consumed. -/
def mainStep (flush : List (List ℤ)) (s : LifeState) : LifeState :=
  match s.phase with
  | .running => { s with phase := .stopped, recording := false }
  | .stopped => { s with phase := .flagSet, finalizing := true }
  | .flagSet => { s with phase := .finalized, queue := s.queue ++ flush }
  | .finalized =>
      if s.queue.isEmpty then { s with phase := .drained } else s
  | .drained => { s with phase := .done, finalizing := false }
  | .done => s

/-- One iteration of the worker loop (live.py 260-276): when the queue is
nonempty, dequeue and process the head (no exit check on a dequeue); on an
empty queue (the `queue.Empty` timeout) exit iff `not recording and
finalizing and transcription_queue.empty()`. -/
def workerStep (s : LifeState) : LifeState :=
  if s.workerExited then s
  else
    match s.queue with
    | u :: rest => { s with queue := rest, processed := s.processed ++ [u] }
    | [] =>
        if s.recording = false ∧ s.finalizing = true then
          { s with workerExited := true }
        else s

/-- One interleaving step: `true` schedules `main`, `false` the worker. -/
def lifeStep (flush : List (List ℤ)) (isMain : Bool) (s : LifeState) :
    LifeState :=
  if isMain then mainStep flush s else workerStep s

/-- Run a finite schedule of interleaving steps. -/
def lifeRun (flush : List (List ℤ)) (acts : List Bool) (s : LifeState) :
    LifeState :=
  acts.foldl (fun s a => lifeStep flush a s) s

/-- Shutdown model start state: session active, queue drained, worker
alive. -/
def initLife : LifeState :=
  { phase := .running
    recording := true
    finalizing := false
    queue := []
    processed := []
    workerExited := false }

-- === Helper lemmas: segmenter ===

theorem durationOf_lt_iff (a : List ℤ) :
    durationOf a < MIN_DURATION ↔ a.length < 8000 := by
  unfold durationOf MIN_DURATION SAMPLE_RATE
  rw [div_lt_iff₀ (by norm_num : (0 : ℚ) < (16000 : ℕ))]
  constructor
  · intro h
    by_contra hc
    push_neg at hc
    have : (8000 : ℚ) ≤ (a.length : ℚ) := by exact_mod_cast hc
    norm_num at h
    linarith
  · intro h
    have : (a.length : ℚ) < 8000 := by exact_mod_cast h
    norm_num
    linarith

theorem durationOf_ge_iff (a : List ℤ) :
    MIN_DURATION ≤ durationOf a ↔ 8000 ≤ a.length := by
  rw [← not_lt, durationOf_lt_iff, not_lt]

theorem classifyStep_queue (b : Bool) (now : ℚ) (s : SegState) :
    (classifyStep b now s).queue = s.queue := by
  unfold classifyStep
  split <;> [rfl; (split <;> rfl)]

theorem classifyStep_audio_buffer (b : Bool) (now : ℚ) (s : SegState) :
    (classifyStep b now s).audio_buffer = s.audio_buffer := by
  unfold classifyStep
  split <;> [rfl; (split <;> rfl)]

theorem trigger_transcription_queue (s : SegState) :
    (trigger_transcription s).queue = s.queue ∨
      ((trigger_transcription s).queue = s.queue ++ [s.audio_buffer] ∧
        8000 ≤ s.audio_buffer.length) := by
  unfold trigger_transcription
  split
  · exact Or.inl rfl
  · split
    · exact Or.inl rfl
    · split
      · exact Or.inl rfl
      · rename_i h0 hdur
        refine Or.inr ⟨rfl, ?_⟩
        rw [not_lt] at hdur
        exact (durationOf_ge_iff s.audio_buffer).1 hdur

-- === Segmenter invariants and claim statements ===

/-- The no-speech-in-session discard invariant of claim C10: whenever the
segmenter's per-reset speech flag is set, the session-level speech flag is
set too. -/
def sessInv (s : SegState) : Prop :=
  s.speech_detected = true → s.speech_detected_in_session = true

theorem sessInv_classifyStep (b : Bool) (now : ℚ) (s : SegState)
    (h : sessInv s) : sessInv (classifyStep b now s) := by
  unfold classifyStep
  split
  · intro _; rfl
  · split
    · exact h
    · exact h

theorem sessInv_trigger (s : SegState) (h : sessInv s) :
    sessInv (trigger_transcription s) := by
  unfold trigger_transcription
  split
  · intro hs; cases hs
  · split
    · exact h
    · split
      · intro hs; cases hs
      · intro hs; cases hs

theorem sessInv_process_chunk (b : Bool) (now : ℚ) (s : SegState)
    (h : sessInv s) : sessInv (process_chunk b now s) := by
  unfold process_chunk
  dsimp only
  split
  · exact sessInv_trigger _ (sessInv_classifyStep b now s h)
  · exact sessInv_classifyStep b now s h

theorem sessInv_addLoop (classify : List ℤ → Bool) (now : ℚ) (fuel : ℕ)
    (s : SegState) (h : sessInv s) : sessInv (addLoop classify now fuel s) := by
  induction fuel generalizing s with
  | zero => exact h
  | succ fuel ih =>
      unfold addLoop
      split
      · exact ih _ (sessInv_process_chunk _ _ _ (by exact h))
      · exact h

theorem sessInv_add_audio (classify : List ℤ → Bool) (now : ℚ)
    (data : List ℤ) (s : SegState) (h : sessInv s) :
    sessInv (add_audio classify now data s) := by
  unfold add_audio
  exact sessInv_addLoop _ _ _ _ (by exact h)

/-- C2: every audio buffer put on the transcription queue contains at least
0.5 s of audio at 16 kHz, i.e. at least 8000 samples; a shorter buffer is
discarded and never enqueued.  Both enqueue sites are covered: a
pause-triggered `_process_chunk` step and a session-end `finalize` call each
either leave the queue unchanged or append exactly one buffer of at least
8000 samples. -/
theorem C2_enqueued_buffers_at_least_half_second (b : Bool) (now : ℚ)
    (s : SegState) :
    ((process_chunk b now s).queue = s.queue ∨
      ∃ a, (process_chunk b now s).queue = s.queue ++ [a] ∧ 8000 ≤ a.length) ∧
    ((SegState.finalize s).queue = s.queue ∨
      ∃ a, (SegState.finalize s).queue = s.queue ++ [a] ∧ 8000 ≤ a.length) := by
  constructor
  · unfold process_chunk
    dsimp only
    split
    · rcases trigger_transcription_queue (classifyStep b now s) with h | ⟨h, hlen⟩
      · exact Or.inl (by rw [h, classifyStep_queue])
      · exact Or.inr ⟨(classifyStep b now s).audio_buffer,
          by rw [h, classifyStep_queue], hlen⟩
    · exact Or.inl (classifyStep_queue b now s)
  · unfold SegState.finalize
    split
    · split
      · rename_i hdur
        exact Or.inr ⟨s.audio_buffer, rfl, (durationOf_ge_iff _).1 hdur⟩
      · exact Or.inl rfl
    · exact Or.inl rfl

/-- C10: within a session, whenever the pause condition fires after
classifying a chunk, the session-level speech flag is already true, so the
no-speech-in-session discard branch of `_trigger_transcription` cannot be
taken from the pause path.  The invariant `sessInv` holds at session start
and is preserved by every chunk-processing step. -/
theorem C10_no_speech_discard_unreachable (b : Bool) (now : ℚ) (s : SegState)
    (h : sessInv s) :
    sessInv initSeg ∧
    sessInv (process_chunk b now s) ∧
    (∀ classify data, sessInv (add_audio classify now data s)) ∧
    (pauseCond (classifyStep b now s) now = true →
      (classifyStep b now s).speech_detected_in_session = true) := by
  refine ⟨?_, sessInv_process_chunk b now s h, ?_, ?_⟩
  · intro hs
    simp [initSeg] at hs
  · intro classify data
    exact sessInv_add_audio classify now data s h
  · intro hp
    have hsd : (classifyStep b now s).speech_detected = true := by
      unfold pauseCond at hp
      rcases hcase : (classifyStep b now s).silence_start with _ | t
      · rw [hcase] at hp; cases hp
      · rw [hcase] at hp
        simp only [Bool.and_eq_true] at hp
        exact hp.1.2
    exact sessInv_classifyStep b now s h hsd

/-- Witness discharging the hypothesis of `C10_no_speech_discard_unreachable`
at the session-start state. -/
theorem C10_no_speech_discard_unreachable_witness :
    sessInv initSeg ∧
    (sessInv initSeg ∧
      sessInv (process_chunk true 1 initSeg) ∧
      (∀ classify data, sessInv (add_audio classify 1 data initSeg)) ∧
      (pauseCond (classifyStep true 1 initSeg) 1 = true →
        (classifyStep true 1 initSeg).speech_detected_in_session = true)) :=
  ⟨fun hs => by simp [initSeg] at hs,
    C10_no_speech_discard_unreachable true 1 initSeg
      (fun hs => by simp [initSeg] at hs)⟩

-- === C3: pause-triggered finalization ===

/-- The finalization condition of claim C3, read off the spec: after
classifying the chunk, a silence start time is recorded, the elapsed time
since it is at least the pause threshold, speech was detected since the last
reset, and the speech buffer is non-empty. -/
def pauseSpec (s1 : SegState) (now : ℚ) : Prop :=
  (∃ t, s1.silence_start = some t ∧ PAUSE_THRESHOLD ≤ now - t) ∧
    s1.speech_detected = true ∧ s1.audio_buffer ≠ []

/-- The amended behaviour of a processed chunk (claim C3 as corrected):
finalization fires exactly when `pauseSpec` holds after classification;
when it fires the buffer is handed to `_trigger_transcription`, which (when
speech was seen in the session) enqueues the buffer if it is at least 0.5 s
and discards it otherwise, resetting the segmenter either way. -/
def C3Spec (b : Bool) (now : ℚ) (s : SegState) : Prop :=
  (pauseCond (classifyStep b now s) now = true ↔
    pauseSpec (classifyStep b now s) now) ∧
  (pauseCond (classifyStep b now s) now = true →
    process_chunk b now s = trigger_transcription (classifyStep b now s)) ∧
  (pauseCond (classifyStep b now s) now = false →
    process_chunk b now s = classifyStep b now s) ∧
  (∀ s1 : SegState, s1.speech_detected_in_session = true →
    (8000 ≤ s1.audio_buffer.length →
      trigger_transcription s1 =
        SegState.reset { s1 with queue := s1.queue ++ [s1.audio_buffer] }) ∧
    (s1.audio_buffer ≠ [] → s1.audio_buffer.length < 8000 →
      trigger_transcription s1 = s1.reset))

theorem classifyStep_silence_pos (b : Bool) (now : ℚ) (s : SegState)
    (hpos : ∀ u, s.silence_start = some u → 0 < u) (hnow : 0 < now) :
    ∀ u, (classifyStep b now s).silence_start = some u → 0 < u := by
  unfold classifyStep
  split
  · intro u hu; cases hu
  · split
    · intro u hu
      cases hu
      exact hnow
    · exact hpos

/-- C3 (amended): a processed chunk triggers finalization exactly when the
spec's four conditions hold after classification, and the triggered
finalization enqueues the buffer only when it is at least 0.5 s, discarding
it otherwise; the segmenter is reset in both cases.  The hypotheses say that
recorded times are positive, as `time.time()` values are. -/
theorem C3_pause_finalization (b : Bool) (now : ℚ) (s : SegState)
    (hpos : ∀ u, s.silence_start = some u → 0 < u) (hnow : 0 < now) :
    C3Spec b now s := by
  have hpos1 := classifyStep_silence_pos b now s hpos hnow
  refine ⟨?_, ?_, ?_, ?_⟩
  · unfold pauseCond pauseSpec
    rcases hcase : (classifyStep b now s).silence_start with _ | t
    · simp
    · have ht : 0 < t := hpos1 t hcase
      simp only [Bool.and_eq_true, decide_eq_true_eq]
      constructor
      · rintro ⟨⟨⟨-, h2⟩, h3⟩, h4⟩
        refine ⟨⟨t, rfl, h2⟩, h3, ?_⟩
        intro hnil
        rw [hnil] at h4
        simp at h4
      · rintro ⟨⟨t', ht', h2⟩, h3, h4⟩
        cases ht'
        exact ⟨⟨⟨ne_of_gt ht, h2⟩, h3⟩,
          List.length_pos_of_ne_nil h4⟩
  · intro hp
    unfold process_chunk
    dsimp only
    rw [hp]
    simp
  · intro hp
    unfold process_chunk
    dsimp only
    rw [hp]
    simp
  · intro s1 hsess
    constructor
    · intro hlen
      unfold trigger_transcription
      rw [hsess]
      have h0 : ¬s1.audio_buffer.length = 0 := by omega
      rw [if_neg (by simp), if_neg h0,
        if_neg (by rw [durationOf_lt_iff]; omega)]
    · intro hne hlen
      unfold trigger_transcription
      rw [hsess]
      have h0 : ¬s1.audio_buffer.length = 0 := by
        have := List.length_pos_of_ne_nil hne
        omega
      rw [if_neg (by simp), if_neg h0,
        if_pos ((durationOf_lt_iff _).2 hlen)]

/-- Witness discharging the hypotheses of `C3_pause_finalization` at a
concrete state. -/
theorem C3_pause_finalization_witness :
    (∀ u, initSeg.silence_start = some u → 0 < u) ∧ (0 : ℚ) < 1 ∧
      C3Spec true 1 initSeg :=
  ⟨fun u hu => by simp [initSeg] at hu, by norm_num,
    C3_pause_finalization true 1 initSeg
      (fun u hu => by simp [initSeg] at hu) (by norm_num)⟩

/-- A segmenter state reachable after one 512-sample speech chunk (at time
2/5 s) and one silence chunk (at time 1 s): 1536 samples are buffered (the
speech chunk plus two silence chunks, the last being processed next), speech
was detected, and silence started at time 1. -/
def c3state : SegState :=
  { audio_buffer := List.replicate 1536 1
    chunk_buffer := []
    speech_detected := true
    silence_start := some 1
    speech_detected_in_session := true
    speech_detected_in_chunk := true
    last_speech_time := 2 / 5
    queue := [] }

/-- C3 counterexample: at `c3state`, processing a silence chunk at time 2 s
satisfies all four conditions of the claim (silence started at 1 s, one
second's silence exceeds the 600 ms threshold, speech was detected, the
1536-sample buffer is non-empty), so pause-triggered finalization occurs —
but no utterance is enqueued: the 1536-sample (96 ms) buffer is below the
0.5 s floor and is discarded, leaving the queue empty, contradicting the
claim that finalization always constructs and enqueues an utterance. -/
theorem C3_counterexample :
    pauseCond (classifyStep false 2 c3state) 2 = true ∧
    pauseSpec (classifyStep false 2 c3state) 2 ∧
    c3state.audio_buffer ≠ [] ∧
    (process_chunk false 2 c3state).queue = [] ∧
    (process_chunk false 2 c3state).audio_buffer = [] := by
  have hclass : classifyStep false 2 c3state = c3state := by
    unfold classifyStep
    rw [if_neg (by simp), if_neg (by simp [-List.reduceReplicate, c3state])]
  refine ⟨?_, ?_, ?_, ?_, ?_⟩
  · rw [hclass]
    simp [-List.reduceReplicate, pauseCond, c3state, PAUSE_THRESHOLD]
    norm_num
  · rw [hclass]
    refine ⟨⟨1, rfl, by norm_num [PAUSE_THRESHOLD]⟩, rfl, by simp [-List.reduceReplicate, c3state]⟩
  · simp [-List.reduceReplicate, c3state]
  · unfold process_chunk
    dsimp only
    rw [hclass]
    rw [if_pos (by simp [-List.reduceReplicate, pauseCond, c3state, PAUSE_THRESHOLD]; norm_num)]
    unfold trigger_transcription
    rw [if_neg (by simp [-List.reduceReplicate, c3state]), if_neg (by simp [-List.reduceReplicate, c3state]),
      if_pos (by rw [durationOf_lt_iff]; simp [-List.reduceReplicate, c3state])]
    simp [-List.reduceReplicate, SegState.reset, c3state]
  · unfold process_chunk
    dsimp only
    rw [hclass]
    rw [if_pos (by simp [-List.reduceReplicate, pauseCond, c3state, PAUSE_THRESHOLD]; norm_num)]
    unfold trigger_transcription
    rw [if_neg (by simp [-List.reduceReplicate, c3state]), if_neg (by simp [-List.reduceReplicate, c3state]),
      if_pos (by rw [durationOf_lt_iff]; simp [-List.reduceReplicate, c3state])]
    simp [SegState.reset]

-- === C5: finalize is not idempotent ===

/-- A state at session end with 8000 buffered samples (0.5 s) and speech
detected in the session. -/
def c5state : SegState :=
  { initSeg with
    audio_buffer := List.replicate 8000 1
    speech_detected_in_session := true }

/-- C5 counterexample: `finalize` does not clear the buffer, so calling it a
second time in the state it just produced enqueues the same 8000-sample
buffer again — the second call produces an additional enqueued utterance and
a state change, contradicting idempotence. -/
theorem C5_counterexample :
    (SegState.finalize c5state).queue = [List.replicate 8000 1] ∧
    (SegState.finalize (SegState.finalize c5state)).queue =
      [List.replicate 8000 1, List.replicate 8000 1] ∧
    SegState.finalize (SegState.finalize c5state) ≠
      SegState.finalize c5state := by
  have h1 : (SegState.finalize c5state).queue = [List.replicate 8000 1] := by
    norm_num [-List.reduceReplicate, SegState.finalize, c5state, initSeg,
      durationOf, MIN_DURATION, SAMPLE_RATE, List.length_replicate]
  have h2 : (SegState.finalize (SegState.finalize c5state)).queue =
      [List.replicate 8000 1, List.replicate 8000 1] := by
    norm_num [-List.reduceReplicate, SegState.finalize, c5state, initSeg,
      durationOf, MIN_DURATION, SAMPLE_RATE, List.length_replicate]
  refine ⟨h1, h2, ?_⟩
  intro heq
  have hq := congrArg SegState.queue heq
  rw [h1, h2] at hq
  simp [-List.reduceReplicate] at hq

/-- C5 (amended): `finalize()` called when the speech buffer is empty is a
no-op — no utterance is produced and the state is unchanged (idempotence in
general fails, per `C5_counterexample`, because `finalize` does not clear
the buffer). -/
theorem C5_finalize_empty_noop (s : SegState) (h : s.audio_buffer = []) :
    SegState.finalize s = s := by
  unfold SegState.finalize
  rw [if_neg (by simp [h])]

/-- Witness discharging the hypothesis of `C5_finalize_empty_noop` at the
session-start state. -/
theorem C5_finalize_empty_noop_witness :
    initSeg.audio_buffer = [] ∧ SegState.finalize initSeg = initSeg :=
  ⟨rfl, C5_finalize_empty_noop initSeg rfl⟩

-- === C4: shutdown drain race ===

/-- A 0.5 s utterance flushed by session-end `finalize`. -/
def u8000 : List ℤ := List.replicate 8000 1

/-- C4: the worker's exit check requires only that the `finalizing` flag has
been SET, not that the finalize phase is COMPLETE.  Failing schedule, from a
quiescent recording session: `main` clears `recording` and sets
`finalizing`; the worker's poll then times out on the empty queue and the
worker exits while `main` is still at the start of the finalize phase
(`phase = flagSet`, before `audio_processor.finalize()` has run); `finalize`
then flushes a last 0.5 s utterance into the queue, which no schedule can
ever process (the worker has exited and `main` is blocked in
`queue.join()`): the code contradicts its own comment that the worker only
exits once "finalization is done", and the finalize-flushed utterance
remains unprocessed forever. -/
theorem C4_worker_exits_before_finalize_completes :
    (lifeRun [u8000] [true, true, false] initLife).workerExited = true ∧
    (lifeRun [u8000] [true, true, false] initLife).phase = MainPhase.flagSet ∧
    (lifeRun [u8000] [true, true, false, true] initLife).queue = [u8000] ∧
    (lifeRun [u8000] [true, true, false, true] initLife).processed = [] ∧
    lifeRun [u8000] [true, true, false, true, true, false, false] initLife =
      lifeRun [u8000] [true, true, false, true] initLife :=
  ⟨rfl, rfl, rfl, rfl, rfl⟩

/-- The worker exit condition actually implemented: on a poll timeout the
worker exits iff `recording` is false, the `finalizing` flag is set, and the
queue is empty; a dequeue never exits. -/
theorem worker_exit_check (s : LifeState) :
    ((workerStep s).workerExited = true →
      s.workerExited = true ∨
        (s.recording = false ∧ s.finalizing = true ∧ s.queue = [])) ∧
    (s.queue ≠ [] → (workerStep s).workerExited = s.workerExited) := by
  constructor
  · intro h
    unfold workerStep at h
    by_cases hex : s.workerExited = true
    · exact Or.inl hex
    · rw [if_neg hex] at h
      rcases hq : s.queue with _ | ⟨u, rest⟩
      · rw [hq] at h
        by_cases hc : s.recording = false ∧ s.finalizing = true
        · exact Or.inr ⟨hc.1, hc.2, rfl⟩
        · rw [if_neg hc] at h
          exact Or.inl h
      · rw [hq] at h
        exact Or.inl h
  · intro hq
    unfold workerStep
    by_cases hex : s.workerExited = true
    · rw [if_pos hex]
    · rw [if_neg hex]
      rcases hqq : s.queue with _ | ⟨u, rest⟩
      · exact absurd hqq hq
      · rfl

-- === Worker-side helper lemmas and claims C1 / C6 ===

theorem workerDrain_append (e : Engine) (sl : Option Str) (s : WState)
    (q1 q2 : List (List ℤ)) :
    workerDrain e sl s (q1 ++ q2) = workerDrain e sl (workerDrain e sl s q1) q2 := by
  induction q1 generalizing s with
  | nil => rfl
  | cons u rest ih => simp [workerDrain, ih]

theorem transcribe_audio_outputs (e : Engine) (sl : Option Str) (s : WState)
    (u : List ℤ) :
    (transcribe_audio e sl s u).outputs = s.outputs ++ emitOf e sl s u := by
  unfold transcribe_audio emitOf
  rcases h : rawOf e sl s u with _ | raw
  · simp
  · dsimp only
    split
    · simp
    · split <;> split <;> rfl

theorem workerDrain_outputs (e : Engine) (sl : Option Str) (s : WState)
    (q : List (List ℤ)) :
    (workerDrain e sl s q).outputs = s.outputs ++ drainOuts e sl s q := by
  induction q generalizing s with
  | nil => simp [workerDrain, drainOuts]
  | cons u rest ih =>
      simp [workerDrain, drainOuts, ih, transcribe_audio_outputs,
        List.append_assoc]

theorem drainOuts_append (e : Engine) (sl : Option Str) (s : WState)
    (q1 q2 : List (List ℤ)) :
    drainOuts e sl s (q1 ++ q2) =
      drainOuts e sl s q1 ++ drainOuts e sl (workerDrain e sl s q1) q2 := by
  induction q1 generalizing s with
  | nil => rfl
  | cons u rest ih => simp [drainOuts, workerDrain, ih]

/-- C1: the pasted texts appear in exactly the enqueue order of the
utterances.  For any queue containing `u1` enqueued before `u2`, the
worker's total output stream decomposes as the outputs for the utterances
before `u1`, then `u1`'s output, then those between `u1` and `u2`, then
`u2`'s output, then the rest — so `u1`'s result is emitted before `u2`'s,
whatever the engine does on each call. -/
theorem C1_outputs_in_enqueue_order (e : Engine) (sl : Option Str)
    (s : WState) (pre mid post : List (List ℤ)) (u1 u2 : List ℤ) :
    (workerDrain e sl s (pre ++ u1 :: (mid ++ u2 :: post))).outputs =
      s.outputs ++ drainOuts e sl s pre
        ++ emitOf e sl (workerDrain e sl s pre) u1
        ++ drainOuts e sl
            (transcribe_audio e sl (workerDrain e sl s pre) u1) mid
        ++ emitOf e sl
            (workerDrain e sl
              (transcribe_audio e sl (workerDrain e sl s pre) u1) mid) u2
        ++ drainOuts e sl
            (transcribe_audio e sl
              (workerDrain e sl
                (transcribe_audio e sl (workerDrain e sl s pre) u1) mid) u2)
            post := by
  rw [workerDrain_outputs, drainOuts_append]
  have h1 : drainOuts e sl (workerDrain e sl s pre) (u1 :: (mid ++ u2 :: post)) =
      emitOf e sl (workerDrain e sl s pre) u1 ++
        drainOuts e sl (transcribe_audio e sl (workerDrain e sl s pre) u1)
          (mid ++ u2 :: post) := rfl
  rw [h1, drainOuts_append]
  have h2 : drainOuts e sl
      (workerDrain e sl (transcribe_audio e sl (workerDrain e sl s pre) u1) mid)
      (u2 :: post) =
      emitOf e sl
          (workerDrain e sl
            (transcribe_audio e sl (workerDrain e sl s pre) u1) mid) u2 ++
        drainOuts e sl
          (transcribe_audio e sl
            (workerDrain e sl
              (transcribe_audio e sl (workerDrain e sl s pre) u1) mid) u2)
          post := rfl
  rw [h2]
  simp [List.append_assoc]

-- === C6: sticky session language ===

/-- The language string handed to the engine by `_transcribe_audio` from
worker state `s`. -/
def usedLanguage (sl : Option Str) (s : WState) : Str :=
  (computeLanguage sl s.detected_language).1

/-- Invariant on `detected_language`: it is unset, or it equals the
explicitly given session language (the code's auto-detection block is
commented out, so no other value can ever be stored). -/
def detInv (sl : Option Str) (s : WState) : Prop :=
  s.detected_language = none ∨
    ∃ v, sl = some v ∧ s.detected_language = some v

theorem transcribe_audio_det (e : Engine) (sl : Option Str) (s : WState)
    (u : List ℤ) :
    (transcribe_audio e sl s u).detected_language =
      (computeLanguage sl s.detected_language).2 := by
  unfold transcribe_audio
  rcases h : rawOf e sl s u with _ | raw
  · rfl
  · dsimp only
    split <;> rfl

/-- C6: the engine-invocation language is sticky per session.  Under the
invariant `detInv` (which holds at session start and is preserved by every
worker step), every invocation's language is the explicit session language
when one was given and `"auto"` otherwise; and once `detected_language`
holds a (truthy) value, every invocation uses exactly that value instead of
`"auto"`. -/
theorem C6_session_language_sticky (e : Engine) (sl : Option Str)
    (s : WState) (u : List ℤ) (h : detInv sl s) :
    usedLanguage sl s = sl.getD autoStr ∧
    detInv sl (transcribe_audio e sl s u) ∧
    detInv sl initW ∧
    (∀ v, s.detected_language = some v → v ≠ [] → usedLanguage sl s = v) := by
  refine ⟨?_, ?_, Or.inl rfl, ?_⟩
  · rcases h with hnone | ⟨v, hsl, hdet⟩
    · rcases sl with _ | w <;>
        simp [usedLanguage, computeLanguage, optTruthy, hnone]
    · subst hsl
      rw [usedLanguage, hdet]
      by_cases hv : v.isEmpty
      · simp [computeLanguage, optTruthy, hv]
      · simp [computeLanguage, optTruthy, hv]
  · rw [detInv, transcribe_audio_det]
    unfold computeLanguage
    by_cases htr : optTruthy s.detected_language = true
    · rw [if_pos htr]
      exact h
    · rw [if_neg htr]
      rcases sl with _ | w
      · exact h
      · exact Or.inr ⟨w, rfl, rfl⟩
  · intro v hv hne
    unfold usedLanguage computeLanguage
    rw [hv]
    rw [if_pos (by simp [optTruthy, hne])]
    rfl

/-- Witness discharging the hypothesis of `C6_session_language_sticky` at
the session-start state. -/
theorem C6_session_language_sticky_witness :
    detInv none initW ∧
      (usedLanguage none initW = (none : Option Str).getD autoStr ∧
        detInv none (transcribe_audio (fun _ _ _ => none) none initW []) ∧
        detInv none initW ∧
        (∀ v, initW.detected_language = some v → v ≠ [] →
          usedLanguage none initW = v)) :=
  ⟨Or.inl rfl,
    C6_session_language_sticky (fun _ _ _ => none) none initW [] (Or.inl rfl)⟩

-- === C9: engine failure / empty text is skipped without side effects ===

theorem computeLanguage_idem (sl d : Option Str) :
    computeLanguage sl (computeLanguage sl d).2 = computeLanguage sl d := by
  unfold computeLanguage
  rcases d with _ | v
  · rcases sl with _ | w
    · simp [optTruthy]
    · by_cases hw : w.isEmpty <;> simp [optTruthy, hw]
  · by_cases hv : v.isEmpty
    · rcases sl with _ | w
      · simp [optTruthy, hv]
      · by_cases hw : w.isEmpty <;> simp [optTruthy, hv, hw]
    · simp [optTruthy, hv]

theorem transcribe_audio_congr (e : Engine) (sl : Option Str)
    (s s' : WState) (u : List ℤ)
    (hacc : s'.accumulated_text = s.accumulated_text)
    (hclip : s'.clipboard = s.clipboard)
    (hout : s'.outputs = s.outputs)
    (hdet : computeLanguage sl s'.detected_language =
      computeLanguage sl s.detected_language) :
    transcribe_audio e sl s' u = transcribe_audio e sl s u := by
  unfold transcribe_audio rawOf
  rw [hacc, hdet, hclip, hout]

theorem transcribe_audio_failure_state (e : Engine) (sl : Option Str)
    (s : WState) (u : List ℤ)
    (hfail : rawOf e sl s u = none ∨
      ∃ raw, rawOf e sl s u = some raw ∧ pyStrip raw = []) :
    transcribe_audio e sl s u =
      { s with detected_language := (computeLanguage sl s.detected_language).2 } := by
  unfold transcribe_audio
  rcases hfail with h | ⟨raw, h, hempty⟩
  · rw [h]
  · rw [h]
    dsimp only
    rw [if_pos (by simp [hempty])]

/-- C9: when an engine invocation fails (raises) or yields empty text, the
utterance is skipped with no side effects: the transcript, clipboard and
paste stream are unchanged, the worker simply continues with the rest of
the queue (no retry of the failed item), and the presence of the failed
utterance in the queue changes neither the transcript nor the emitted
output of the remaining utterances. -/
theorem C9_failure_skipped_without_effects (e : Engine) (sl : Option Str)
    (s : WState) (u : List ℤ) (rest : List (List ℤ))
    (hfail : rawOf e sl s u = none ∨
      ∃ raw, rawOf e sl s u = some raw ∧ pyStrip raw = []) :
    (transcribe_audio e sl s u).accumulated_text = s.accumulated_text ∧
    (transcribe_audio e sl s u).clipboard = s.clipboard ∧
    (transcribe_audio e sl s u).outputs = s.outputs ∧
    workerDrain e sl s (u :: rest) =
      workerDrain e sl (transcribe_audio e sl s u) rest ∧
    (workerDrain e sl s (u :: rest)).accumulated_text =
      (workerDrain e sl s rest).accumulated_text ∧
    (workerDrain e sl s (u :: rest)).outputs =
      (workerDrain e sl s rest).outputs := by
  have hstate := transcribe_audio_failure_state e sl s u hfail
  have hdrop : ∀ u' rest', workerDrain e sl s (u :: u' :: rest') =
      workerDrain e sl s (u' :: rest') := by
    intro u' rest'
    show workerDrain e sl
        (transcribe_audio e sl (transcribe_audio e sl s u) u') rest' =
      workerDrain e sl (transcribe_audio e sl s u') rest'
    rw [show transcribe_audio e sl (transcribe_audio e sl s u) u' =
        transcribe_audio e sl s u' from by
      apply transcribe_audio_congr <;> rw [hstate]
      exact computeLanguage_idem sl s.detected_language]
  refine ⟨by rw [hstate], by rw [hstate], by rw [hstate], rfl, ?_, ?_⟩
  · rcases rest with _ | ⟨u', rest'⟩
    · show (transcribe_audio e sl s u).accumulated_text = s.accumulated_text
      rw [hstate]
    · rw [hdrop]
  · rcases rest with _ | ⟨u', rest'⟩
    · show (transcribe_audio e sl s u).outputs = s.outputs
      rw [hstate]
    · rw [hdrop]

/-- Witness discharging the hypothesis of
`C9_failure_skipped_without_effects` with an engine that raises. -/
theorem C9_failure_skipped_without_effects_witness :
    (rawOf (fun _ _ _ => none) none initW [] = none ∨
      ∃ raw, rawOf (fun _ _ _ => none) none initW [] = some raw ∧
        pyStrip raw = []) ∧
    ((transcribe_audio (fun _ _ _ => none) none initW []).accumulated_text =
        initW.accumulated_text ∧
      (transcribe_audio (fun _ _ _ => none) none initW []).clipboard =
        initW.clipboard ∧
      (transcribe_audio (fun _ _ _ => none) none initW []).outputs =
        initW.outputs ∧
      workerDrain (fun _ _ _ => none) none initW [[], []] =
        workerDrain (fun _ _ _ => none) none
          (transcribe_audio (fun _ _ _ => none) none initW []) [[]] ∧
      (workerDrain (fun _ _ _ => none) none initW [[], []]).accumulated_text =
        (workerDrain (fun _ _ _ => none) none initW [[]]).accumulated_text ∧
      (workerDrain (fun _ _ _ => none) none initW [[], []]).outputs =
        (workerDrain (fun _ _ _ => none) none initW [[]]).outputs) :=
  ⟨Or.inl rfl,
    C9_failure_skipped_without_effects (fun _ _ _ => none) none initW [] [[]]
      (Or.inl rfl)⟩

-- === String lemmas for C7 / C8 ===

theorem splitOnP_sep {α : Type} (p : α → Bool) (c : α) (hc : p c = true)
    (xs ys : List α) :
    (xs ++ c :: ys).splitOnP p = xs.splitOnP p ++ ys.splitOnP p := by
  induction xs with
  | nil => simp [List.splitOnP_nil, List.splitOnP_cons, hc]
  | cons x xs ih =>
      rw [List.cons_append, List.splitOnP_cons, List.splitOnP_cons]
      by_cases hx : p x
      · rw [if_pos hx, if_pos hx, ih]
        rfl
      · rw [if_neg hx, if_neg hx, ih]
        rcases h : xs.splitOnP p with _ | ⟨w, ws⟩
        · exact absurd h (List.splitOnP_ne_nil p xs)
        · simp [List.modifyHead]

theorem pySplit_space (a t : Str) :
    pySplit (a ++ ' ' :: t) = pySplit a ++ pySplit t := by
  unfold pySplit
  rw [splitOnP_sep isWs ' ' (by decide) a t, List.filter_append]

/-- `true` iff the string is empty or starts with a non-whitespace
character. -/
def headNotWs : Str → Bool
  | [] => true
  | c :: _ => !isWs c

/-- The `accumulated_text` shape invariant: the transcript is empty or both
starts and ends with a non-whitespace character (it is a join of stripped
nonempty fragments). -/
def accOk (a : Str) : Bool := headNotWs a && headNotWs a.reverse

theorem headNotWs_append (a b : Str) (ha : a ≠ []) :
    headNotWs (a ++ b) = headNotWs a := by
  rcases a with _ | ⟨c, a⟩
  · exact absurd rfl ha
  · rfl

theorem headNotWs_dropWhile (l : Str) :
    headNotWs (l.dropWhile isWs) = true := by
  induction l with
  | nil => rfl
  | cons c l ih =>
      rw [List.dropWhile_cons]
      by_cases h : isWs c = true
      · rw [if_pos h]
        exact ih
      · rw [if_neg h]
        simp [headNotWs] at h ⊢
        exact h

theorem accOk_pyStrip (raw : Str) : accOk (pyStrip raw) = true := by
  unfold accOk pyStrip
  rw [Bool.and_eq_true]
  constructor
  · have h1 : headNotWs (raw.dropWhile isWs) = true :=
      headNotWs_dropWhile raw
    have h2 : raw.dropWhile isWs =
        ((raw.dropWhile isWs).reverse.dropWhile isWs).reverse ++
          ((raw.dropWhile isWs).reverse.takeWhile isWs).reverse := by
      calc raw.dropWhile isWs
          = (raw.dropWhile isWs).reverse.reverse :=
            (List.reverse_reverse _).symm
        _ = (((raw.dropWhile isWs).reverse.takeWhile isWs) ++
              ((raw.dropWhile isWs).reverse.dropWhile isWs)).reverse := by
            rw [List.takeWhile_append_dropWhile]
        _ = ((raw.dropWhile isWs).reverse.dropWhile isWs).reverse ++
              ((raw.dropWhile isWs).reverse.takeWhile isWs).reverse :=
            List.reverse_append _ _
    rcases hz : ((raw.dropWhile isWs).reverse.dropWhile isWs).reverse
      with _ | ⟨c, zs⟩
    · rfl
    · rw [h2, hz, headNotWs_append _ _ (by simp)] at h1
      exact h1
  · rw [List.reverse_reverse]
    exact headNotWs_dropWhile _

theorem accOk_append (a t : Str) (ha : a ≠ []) (ht : t ≠ [])
    (hok : accOk a = true) (htok : accOk t = true) :
    accOk (a ++ ' ' :: t) = true := by
  rw [accOk, Bool.and_eq_true] at hok htok ⊢
  constructor
  · rw [headNotWs_append a (' ' :: t) ha]
    exact hok.1
  · rw [List.reverse_append, List.reverse_cons, List.append_assoc,
      headNotWs_append t.reverse _ (by simpa using ht)]
    exact htok.2

theorem pySplit_ne_nil_of_headNotWs (a : Str) (ha : a ≠ [])
    (h : headNotWs a = true) : pySplit a ≠ [] := by
  rcases a with _ | ⟨c, rest⟩
  · exact absurd rfl ha
  · have hc : isWs c = false := by
      simpa [headNotWs] using h
    unfold pySplit
    rw [List.splitOnP_cons, if_neg (by simp [hc])]
    rcases hr : rest.splitOnP isWs with _ | ⟨w, ws⟩
    · exact absurd hr (List.splitOnP_ne_nil _ rest)
    · simp [List.modifyHead]

theorem transcribe_audio_acc_none (e : Engine) (sl : Option Str)
    (s : WState) (u : List ℤ) (h : rawOf e sl s u = none) :
    (transcribe_audio e sl s u).accumulated_text = s.accumulated_text := by
  unfold transcribe_audio
  rw [h]

theorem transcribe_audio_acc_some (e : Engine) (sl : Option Str)
    (s : WState) (u : List ℤ) (raw : Str) (h : rawOf e sl s u = some raw) :
    (transcribe_audio e sl s u).accumulated_text =
      if (pyStrip raw).isEmpty then s.accumulated_text
      else if s.accumulated_text.isEmpty then pyStrip raw
      else s.accumulated_text ++ ' ' :: pyStrip raw := by
  unfold transcribe_audio
  rw [h]
  dsimp only
  split
  · rfl
  · split <;> rfl

theorem accOk_transcribe_audio (e : Engine) (sl : Option Str) (s : WState)
    (u : List ℤ) (h : accOk s.accumulated_text = true) :
    accOk (transcribe_audio e sl s u).accumulated_text = true := by
  rcases hr : rawOf e sl s u with _ | raw
  · rw [transcribe_audio_acc_none e sl s u hr]
    exact h
  · rw [transcribe_audio_acc_some e sl s u raw hr]
    by_cases he : (pyStrip raw).isEmpty
    · rw [if_pos he]
      exact h
    · rw [if_neg he]
      by_cases ha : s.accumulated_text.isEmpty
      · rw [if_pos ha]
        exact accOk_pyStrip raw
      · rw [if_neg ha]
        exact accOk_append _ _ (by simpa [List.isEmpty_iff] using ha)
          (by simpa [List.isEmpty_iff] using he) h (accOk_pyStrip raw)

-- === C8: leading space iff the transcript already had content ===

/-- C8: on a successful result with nonempty (stripped) text, the exact
string copied to the clipboard and pasted is the text, with a single
leading space prepended iff the transcript was nonempty before this result
was appended.  The hypothesis `accOk` is the transcript shape invariant,
which holds at session start and is preserved by every worker step
(`accOk_transcribe_audio`). -/
theorem C8_paste_leading_space_iff_nonempty_transcript (e : Engine)
    (sl : Option Str) (s : WState) (u : List ℤ) (raw : Str)
    (hok : accOk s.accumulated_text = true)
    (hraw : rawOf e sl s u = some raw)
    (ht : pyStrip raw ≠ []) :
    (transcribe_audio e sl s u).outputs =
      s.outputs ++
        [if s.accumulated_text.isEmpty then pyStrip raw
          else ' ' :: pyStrip raw] ∧
    (transcribe_audio e sl s u).clipboard =
      some (if s.accumulated_text.isEmpty then pyStrip raw
        else ' ' :: pyStrip raw) := by
  unfold transcribe_audio
  rw [hraw]
  dsimp only
  rw [if_neg (by simpa [List.isEmpty_iff] using ht)]
  have hok' : headNotWs s.accumulated_text = true ∧
      headNotWs s.accumulated_text.reverse = true := by
    rw [accOk, Bool.and_eq_true] at hok
    exact hok
  by_cases ha : s.accumulated_text.isEmpty
  · rw [if_pos ha, if_pos ha]
    rw [if_neg (lt_irrefl _)]
    exact ⟨rfl, rfl⟩
  · have hane : s.accumulated_text ≠ [] := by
      simpa [List.isEmpty_iff] using ha
    have hsplit : (pySplit s.accumulated_text) ≠ [] :=
      pySplit_ne_nil_of_headNotWs _ hane hok'.1
    have hlt : (pySplit (pyStrip raw)).length <
        (pySplit (s.accumulated_text ++ ' ' :: pyStrip raw)).length := by
      rw [pySplit_space, List.length_append]
      have : 0 < (pySplit s.accumulated_text).length :=
        List.length_pos_of_ne_nil hsplit
      omega
    rw [if_neg ha, if_neg ha, if_pos hlt]
    exact ⟨rfl, rfl⟩

/-- Witness discharging the hypotheses of
`C8_paste_leading_space_iff_nonempty_transcript` with an engine returning
the text `hi` at the session start state. -/
theorem C8_paste_leading_space_iff_nonempty_transcript_witness :
    accOk initW.accumulated_text = true ∧
    rawOf (fun _ _ _ => some ['h', 'i']) none initW [] = some ['h', 'i'] ∧
    pyStrip ['h', 'i'] ≠ [] ∧
    ((transcribe_audio (fun _ _ _ => some ['h', 'i']) none initW []).outputs =
        initW.outputs ++
          [if initW.accumulated_text.isEmpty then pyStrip ['h', 'i']
            else ' ' :: pyStrip ['h', 'i']] ∧
      (transcribe_audio (fun _ _ _ => some ['h', 'i']) none initW []).clipboard =
        some (if initW.accumulated_text.isEmpty then pyStrip ['h', 'i']
          else ' ' :: pyStrip ['h', 'i'])) :=
  ⟨rfl, rfl, by decide,
    C8_paste_leading_space_iff_nonempty_transcript
      (fun _ _ _ => some ['h', 'i']) none initW [] ['h', 'i']
      rfl rfl (by decide)⟩

-- === C7: the transcript is the space-joined list of nonempty results ===

/-- Fold of the transcript-append rule of live.py 382-386 over a list of
result texts. -/
def appendAll (a : Str) (ts : List Str) : Str :=
  ts.foldl (fun acc t => if acc.isEmpty then t else acc ++ ' ' :: t) a

theorem workerDrain_acc (e : Engine) (sl : Option Str) (s : WState)
    (q : List (List ℤ)) :
    (workerDrain e sl s q).accumulated_text =
      appendAll s.accumulated_text (resultsOf e sl s q) := by
  induction q generalizing s with
  | nil => rfl
  | cons u rest ih =>
      show (workerDrain e sl (transcribe_audio e sl s u) rest).accumulated_text = _
      rw [ih, resultsOf]
      rcases hr : rawOf e sl s u with _ | raw
      · rw [transcribe_audio_acc_none e sl s u hr]
        rfl
      · rw [transcribe_audio_acc_some e sl s u raw hr]
        dsimp only
        by_cases he : (pyStrip raw).isEmpty
        · rw [if_pos he, if_pos he]
          rfl
        · rw [if_neg he, if_neg he]
          rfl

theorem resultsOf_forall_ne_nil (e : Engine) (sl : Option Str) (s : WState)
    (q : List (List ℤ)) : ∀ t ∈ resultsOf e sl s q, t ≠ [] := by
  induction q generalizing s with
  | nil => simp [resultsOf]
  | cons u rest ih =>
      intro t ht
      rw [resultsOf] at ht
      rcases List.mem_append.1 ht with h1 | h2
      · rcases hr : rawOf e sl s u with _ | raw
        · rw [hr] at h1
          dsimp only at h1
          cases h1
        · rw [hr] at h1
          dsimp only at h1
          by_cases he : (pyStrip raw).isEmpty
          · rw [if_pos he] at h1
            cases h1
          · rw [if_neg he] at h1
            rcases List.mem_singleton.1 h1 with rfl
            simpa [List.isEmpty_iff] using he
      · exact ih _ t h2

theorem appendAll_ne_nil (a : Str) (ts : List Str) (ha : a ≠ []) :
    appendAll a ts = a ++ (ts.map (fun w => ' ' :: w)).flatten := by
  induction ts generalizing a with
  | nil => simp [appendAll]
  | cons t ts ih =>
      show appendAll (if a.isEmpty then t else a ++ ' ' :: t) ts = _
      rw [if_neg (by simpa [List.isEmpty_iff] using ha)]
      rw [ih (a ++ ' ' :: t) (by simp)]
      simp [List.append_assoc]

theorem appendAll_nil (ts : List Str) (h : ∀ t ∈ ts, t ≠ []) :
    appendAll [] ts = joinSp ts := by
  rcases ts with _ | ⟨t, ts⟩
  · rfl
  · have h0 : appendAll ([] : Str) (t :: ts) = appendAll t ts := rfl
    rw [h0, appendAll_ne_nil t ts (h t (List.mem_cons_self t ts))]
    rfl

/-- C7: for every session the transcript equals the ordered concatenation of
all nonempty result texts with exactly one separating space between
consecutive texts and no leading separator; failed invocations and empty
texts contribute nothing. -/
theorem C7_transcript_is_spaced_concatenation (e : Engine) (sl : Option Str)
    (q : List (List ℤ)) :
    (workerDrain e sl initW q).accumulated_text =
      joinSp (resultsOf e sl initW q) := by
  rw [workerDrain_acc]
  exact appendAll_nil _ (resultsOf_forall_ne_nil e sl initW q)

end LemonWhisper
